import Mathlib

/-! Shallow embedding of the finite state machine engine in src/fsm.c
(functions `run_transition` and `run_fsm`), together with theorems about
its transition matching, table scanning, state routing, cursor handling,
callback ordering and termination behaviour.

Modelling conventions.  The input stream is a list of bytes (the
characters from the current cursor position onward, excluding the
terminating NUL; a C string comparison that would run into the
terminator of the remaining input fails, which the list model reflects
because the pattern bytes are the bytes before the pattern's own
terminator and hence nonzero).  The opaque context pointer is modelled
by a type parameter `σ`, mutated by predicate actions and side effect
callbacks; the per row `local_context` pointer is modelled by a type
parameter `α`.  The C while loop is modelled with an explicit fuel
parameter: a `none` result means the fuel ran out before the loop
finished, so a run of the C program halts exactly when some fuel yields
a `some` result.  The matcher always receives the data list by value,
which is exactly the `data_copy` discipline of `run_fsm`: the copy is
dead after the attempt in the C code, so the matcher returns only the
consumed length (or -1) and the possibly mutated context. -/

namespace Fsm

/-- Modelled from the spec: classification of a transition's target
state, the `type` field of a transition record missing with fsm.h
(one of Normal, Accept, Reject). -/
inductive TransType : Type where
  | normal : TransType
  | accept : TransType
  | reject : TransType
deriving DecidableEq

mutual
/-- Modelled from the spec: the match kind of a transition record
(`match_type` in fsm.c) together with the datum that kind reads
(`str` for EXACT_STR and SINGLE_CHR, `transition_table` for FSM,
`action` for FUNC); `none` models a NULL pointer. -/
inductive MatchSpec (σ α : Type) : Type where
  | exactStr : Option (List Nat) → MatchSpec σ α
  | singleChr : Option (List Nat) → MatchSpec σ α
  | fsmSub : Option (List (Transition σ α)) → MatchSpec σ α
  | func : Option (List Nat → σ → α → Int × σ) → MatchSpec σ α

/-- Modelled from the spec: one row of a transition table (the struct
declared in fsm.h, with exactly the fields fsm.c reads): source state
`current_state`, match datum, on-success state `state_pass`, on-failure
state `state_fail`, target kind `type`, optional side effect callback
`transfn` and the opaque per row `local_context`. -/
inductive Transition (σ α : Type) : Type where
  | mk : Int → MatchSpec σ α → Int → Int → TransType →
      Option (List Nat → σ → α → σ) → α → Transition σ α
end

variable {σ α : Type}

def Transition.current_state : Transition σ α → Int
  | .mk cs _ _ _ _ _ _ => cs

def Transition.mspec : Transition σ α → MatchSpec σ α
  | .mk _ ms _ _ _ _ _ => ms

def Transition.state_pass : Transition σ α → Int
  | .mk _ _ sp _ _ _ _ => sp

def Transition.state_fail : Transition σ α → Int
  | .mk _ _ _ sf _ _ _ => sf

def Transition.ttype : Transition σ α → TransType
  | .mk _ _ _ _ tt _ _ => tt

def Transition.transfn : Transition σ α → Option (List Nat → σ → α → σ)
  | .mk _ _ _ _ _ tf _ => tf

def Transition.local_context : Transition σ α → α
  | .mk _ _ _ _ _ _ lc => lc

/-- Result of a whole run of `run_fsm`: the returned int (consumed byte
count on accept, -1 on failure), the final value of the caller's data
cursor, and the final context. -/
structure RunResult (σ : Type) : Type where
  ret : Int
  data : List Nat
  ctx : σ
deriving DecidableEq

/-- Outcome of one full walk of the action table (the inner for loop of
`run_fsm`): either no row made a successful transition (the context may
still have been mutated by failing attempts), or the first successful
row together with the number of bytes its match consumed and the
context after the match. -/
inductive ScanOut (σ α : Type) : Type where
  | noMatch : σ → ScanOut σ α
  | success : Nat → Transition σ α → σ → ScanOut σ α

/-- Embedding of `run_transition` of fsm.c, parameterised by the
recursive entry used for the FSM match kind (the driver instantiates it
with a fueled `run_fsm`).  The data list plays the role of the
`data_copy` pointer handed to the matcher; EXACT_STR compares the
pattern with `memcmp` over the pattern's full length (a prefix test in
the list model), SINGLE_CHR matches when the first byte of the data is
one of the bytes of `str`, FSM runs the sub table and returns the sub
run's return value, FUNC delegates to the action with the row's
`local_context`.  A NULL datum for the selected kind is a local match
failure (-1). -/
def run_transition_with
    (sub_run : List (Transition σ α) → List Nat → σ → Option (RunResult σ))
    (trans : Transition σ α) (data : List Nat) (context : σ) :
    Option (Int × σ) :=
  match trans.mspec with
  | .exactStr none => some (-1, context)
  | .exactStr (some str) =>
      if str.isPrefixOf data then some ((str.length : Int), context)
      else some (-1, context)
  | .singleChr none => some (-1, context)
  | .singleChr (some str) =>
      match data with
      | [] => some (-1, context)
      | b :: _ => if b ∈ str then some (1, context) else some (-1, context)
  | .fsmSub none => some (-1, context)
  | .fsmSub (some tbl) =>
      match sub_run tbl data context with
      | none => none
      | some res => some (res.ret, res.ctx)
  | .func none => some (-1, context)
  | .func (some act) => some (act data context trans.local_context)

/-- Embedding of the inner for loop of `run_fsm`: walk the rows from
the start of the table until the sentinel row (source state -1) or the
end, attempting every row whose source state equals the current state
on a fresh copy of the authoritative data.  A successful attempt stops
the walk at once; a failed attempt with a non-negative `state_fail`
redirects the current state for the remainder of this same walk, and
with a negative `state_fail` is ignored. -/
def scan_table_with
    (sub_run : List (Transition σ α) → List Nat → σ → Option (RunResult σ)) :
    List (Transition σ α) → Int → List Nat → σ → Option (ScanOut σ α)
  | [], _, _, context => some (.noMatch context)
  | row :: rest, s, data, context =>
      if row.current_state = -1 then some (.noMatch context)
      else if s = row.current_state then
        match run_transition_with sub_run row data context with
        | none => none
        | some (r, context') =>
            if 0 ≤ r then some (.success r.toNat row context')
            else if 0 ≤ row.state_fail then
              scan_table_with sub_run rest row.state_fail data context'
            else
              scan_table_with sub_run rest s data context'
      else scan_table_with sub_run rest s data context

/-- Side effect callback application on a successful transition: fsm.c
calls `transfn(data, context, local_context)` with the authoritative,
not yet advanced cursor; a missing callback leaves the context as the
match left it. -/
def apply_transfn (row : Transition σ α) (data : List Nat) (context : σ) : σ :=
  match row.transfn with
  | some g => g data context row.local_context
  | none => context

/-- Embedding of the while loop of `run_fsm`, with explicit fuel (one
unit per loop iteration and per sub machine entry); state `s`,
authoritative cursor `data`, committed byte count `nb` and accept flag
`acc` are the local variables `current_state`, `*data`,
`nbytes_processed` and `in_accept` of the C function.  On a successful
transition the callback fires first (on the not yet advanced cursor),
then the cursor and the byte count advance by the matched length, the
state moves to `state_pass`, and the accept flag becomes true exactly
for an ACCEPT row; a REJECT row returns -1 at once.  When the walk
finds no successful row the state becomes -1, and the loop exit returns
the byte count if the accept flag is set, -1 otherwise. -/
def run_fsm_loop :
    Nat → List (Transition σ α) → Int → List Nat → Nat → Bool → σ →
    Option (RunResult σ)
  | 0, _, _, _, _, _, _ => none
  | fuel+1, tbl, s, data, nb, acc, context =>
      if s < 0 then some ⟨if acc then (nb : Int) else -1, data, context⟩
      else
        match scan_table_with
            (fun t d c => run_fsm_loop fuel t 0 d 0 false c)
            tbl s data context with
        | none => none
        | some (.noMatch context') =>
            run_fsm_loop fuel tbl (-1) data nb acc context'
        | some (.success n row context') =>
            match row.ttype with
            | .reject => some ⟨-1, data.drop n, apply_transfn row data context'⟩
            | .accept => run_fsm_loop fuel tbl row.state_pass (data.drop n)
                (nb + n) true (apply_transfn row data context')
            | .normal => run_fsm_loop fuel tbl row.state_pass (data.drop n)
                (nb + n) false (apply_transfn row data context')

/-- The matcher with the sub machine entry instantiated: attempting one
transition at a given fuel. -/
def run_transition (fuel : Nat) :
    Transition σ α → List Nat → σ → Option (Int × σ) :=
  run_transition_with (fun t d c => run_fsm_loop fuel t 0 d 0 false c)

/-- One walk of the action table at a given fuel. -/
def scan_table (fuel : Nat) :
    List (Transition σ α) → Int → List Nat → σ → Option (ScanOut σ α) :=
  scan_table_with (fun t d c => run_fsm_loop fuel t 0 d 0 false c)

/-- Embedding of the entry point `run_fsm`: state 0, zero bytes
consumed, accept flag clear. -/
def run_fsm (fuel : Nat) (action_table : List (Transition σ α))
    (data : List Nat) (context : σ) : Option (RunResult σ) :=
  run_fsm_loop fuel action_table 0 data 0 false context

/-- A run of the C program on this table, input and context halts:
some fuel suffices for the loop to return. -/
def fsm_halts (tbl : List (Transition σ α)) (data : List Nat)
    (context : σ) : Prop :=
  ∃ fuel res, run_fsm fuel tbl data context = some res

/-- The table's last row is the sentinel row (source state -1) that
terminates the for loop of `run_fsm`. -/
def sentinel_terminated (tbl : List (Transition σ α)) : Bool :=
  match tbl.getLast? with
  | some row => row.current_state == -1
  | none => false

/-- A row whose match kind is not a sub machine with an attached sub
table; attempting such a row consumes no fuel. -/
def noSubRow : Transition σ α → Bool
  | .mk _ (.fsmSub (some _)) _ _ _ _ _ => false
  | _ => true

/-! Concrete tables used by witnesses and counterexamples. -/

/-- Sentinel row ending a table: source state -1. -/
def sentinelU : Transition Unit Nat :=
  .mk (-1) (.exactStr none) 0 (-1) .normal none 0

/-- Row for state 0 that tries to match the byte 120 and on failure
redirects the scan to state 5. -/
def rowRedirect : Transition Unit Nat :=
  .mk 0 (.exactStr (some [120])) 9 5 .normal none 0

/-- Row for state 0 that tries to match the byte 120 and carries the
negative on-failure value -7 (not the -1 the table terminator uses). -/
def rowNegFail : Transition Unit Nat :=
  .mk 0 (.exactStr (some [120])) 9 (-7) .normal none 0

/-- Row for state 0 whose EXACT_STR pattern is the empty string (a
non NULL pattern of length zero). -/
def rowEmptyStr : Transition Unit Nat :=
  .mk 0 (.exactStr (some [])) 1 (-1) .normal none 0

/-- Row for state 0 committing one byte (97) and moving to state 1. -/
def rowCommit : Transition Unit Nat :=
  .mk 0 (.exactStr (some [97])) 1 (-1) .normal none 0

/-- Row for state 1 whose target kind is Reject, matching byte 98. -/
def rowReject : Transition Unit Nat :=
  .mk 1 (.exactStr (some [98])) 2 (-1) .reject none 0

/-- Row for state 0 matching byte 97 into an Accept state 2. -/
def rowAccept : Transition Unit Nat :=
  .mk 0 (.exactStr (some [97])) 2 (-1) .accept none 0

/-- Callback recording the cursor it observes and its local datum into
a list valued context. -/
def obsFn : List Nat → List Nat → Nat → List Nat :=
  fun d c lc => c ++ d ++ [lc]

/-- Sentinel row for tables whose context is a list of bytes. -/
def sentinelL : Transition (List Nat) Nat :=
  .mk (-1) (.exactStr none) 0 (-1) .normal none 0

/-- Row for state 0 matching the two bytes 97, 98, carrying the
recording callback `obsFn` with local datum 5. -/
def rowObs : Transition (List Nat) Nat :=
  .mk 0 (.exactStr (some [97, 98])) 3 (-1) .normal (some obsFn) 5

/-- Reject row with the recording callback `obsFn` and local datum 7. -/
def rowRejCb : Transition (List Nat) Nat :=
  .mk 0 (.exactStr (some [97])) 1 (-1) .reject (some obsFn) 7

/-- Action that fails (-1) after appending its local datum to the
context. -/
def failAct : List Nat → List Nat → Nat → Int × List Nat :=
  fun _ c lc => (-1, c ++ [lc])

/-- FUNC row whose action `failAct` mutates the context and fails. -/
def rowFailMut : Transition (List Nat) Nat :=
  .mk 0 (.func (some failAct)) 0 (-1) .normal none 9

/-- Row for sub machine state 1 matching byte 98. -/
def rowSub1 : Transition Unit Nat :=
  .mk 1 (.exactStr (some [98])) 2 (-1) .normal none 0

/-- Sub table that consumes byte 97 into state 1 and then fails at
state 1 unless byte 98 follows. -/
def c7SubTable : List (Transition Unit Nat) :=
  [rowCommit, rowSub1, sentinelU]

/-- Outer row for state 0 running `c7SubTable` as a sub machine. -/
def rowOuterSub : Transition Unit Nat :=
  .mk 0 (.fsmSub (some c7SubTable)) 5 (-1) .normal none 0

/-- Predicate action that succeeds while consuming zero bytes and
leaving the context alone, as the FUNC contract of fsm.c allows
(return value 0 or more means transition). -/
def zeroAct : List Nat → Unit → Nat → Int × Unit :=
  fun _ c _ => (0, c)

/-- Row for state 0 whose FUNC action consumes nothing and whose
on-success state is state 0 again. -/
def rowZeroLoop : Transition Unit Nat :=
  .mk 0 (.func (some zeroAct)) 0 (-1) .normal none 0

/-- Sentinel terminated table on which the driver loops forever. -/
def loopTable : List (Transition Unit Nat) :=
  [rowZeroLoop, sentinelU]

@[simp] theorem current_state_mk (cs ms sp sf tt tf lc) :
    (Transition.mk (σ := σ) (α := α) cs ms sp sf tt tf lc).current_state = cs := rfl

@[simp] theorem mspec_mk (cs ms sp sf tt tf lc) :
    (Transition.mk (σ := σ) (α := α) cs ms sp sf tt tf lc).mspec = ms := rfl

@[simp] theorem state_pass_mk (cs ms sp sf tt tf lc) :
    (Transition.mk (σ := σ) (α := α) cs ms sp sf tt tf lc).state_pass = sp := rfl

@[simp] theorem state_fail_mk (cs ms sp sf tt tf lc) :
    (Transition.mk (σ := σ) (α := α) cs ms sp sf tt tf lc).state_fail = sf := rfl

@[simp] theorem ttype_mk (cs ms sp sf tt tf lc) :
    (Transition.mk (σ := σ) (α := α) cs ms sp sf tt tf lc).ttype = tt := rfl

@[simp] theorem transfn_mk (cs ms sp sf tt tf lc) :
    (Transition.mk (σ := σ) (α := α) cs ms sp sf tt tf lc).transfn = tf := rfl

@[simp] theorem local_context_mk (cs ms sp sf tt tf lc) :
    (Transition.mk (σ := σ) (α := α) cs ms sp sf tt tf lc).local_context = lc := rfl
theorem scan_table_nil (fuel : Nat) (s : Int) (data : List Nat) (context : σ) :
    scan_table (α := α) fuel [] s data context = some (.noMatch context) := rfl

theorem scan_table_cons (fuel : Nat) (row : Transition σ α)
    (rest : List (Transition σ α)) (s : Int) (data : List Nat) (context : σ) :
    scan_table fuel (row :: rest) s data context =
      (if row.current_state = -1 then some (.noMatch context)
       else if s = row.current_state then
         match run_transition fuel row data context with
         | none => none
         | some (r, context') =>
             if 0 ≤ r then some (.success r.toNat row context')
             else if 0 ≤ row.state_fail then
               scan_table fuel rest row.state_fail data context'
             else
               scan_table fuel rest s data context'
       else scan_table fuel rest s data context) := rfl

theorem run_fsm_loop_succ (fuel : Nat) (tbl : List (Transition σ α))
    (s : Int) (data : List Nat) (nb : Nat) (acc : Bool) (context : σ) :
    run_fsm_loop (fuel+1) tbl s data nb acc context =
      (if s < 0 then some ⟨if acc then (nb : Int) else -1, data, context⟩
       else
         match scan_table fuel tbl s data context with
         | none => none
         | some (.noMatch context') =>
             run_fsm_loop fuel tbl (-1) data nb acc context'
         | some (.success n row context') =>
             match row.ttype with
             | .reject => some ⟨-1, data.drop n, apply_transfn row data context'⟩
             | .accept => run_fsm_loop fuel tbl row.state_pass (data.drop n)
                 (nb + n) true (apply_transfn row data context')
             | .normal => run_fsm_loop fuel tbl row.state_pass (data.drop n)
                 (nb + n) false (apply_transfn row data context')) := rfl

/-! C1. -/

/-- C1: when an eligible record's match attempt fails and its
on-failure state is non-negative, the driver updates the current state
to that on-failure state at once and the very same table walk continues
with the next record onward, the remaining rows being tested against
the updated state; the walk is neither restarted nor ended. -/
theorem c1_fail_redirect_continues_pass (fuel : Nat) (row : Transition σ α)
    (rest : List (Transition σ α)) (s : Int) (data : List Nat)
    (context context' : σ) (r : Int)
    (hns : row.current_state ≠ -1) (helig : s = row.current_state)
    (hrt : run_transition fuel row data context = some (r, context'))
    (hr : r < 0) (hredir : 0 ≤ row.state_fail) :
    scan_table fuel (row :: rest) s data context =
      scan_table fuel rest row.state_fail data context' := by
  rw [scan_table_cons, if_neg hns, if_pos helig, hrt]
  dsimp only
  rw [if_neg (not_le.mpr hr), if_pos hredir]

/-- C1 witness: the failing attempt of `rowRedirect` on input [97]
makes the same walk continue over the remaining rows with state 5. -/
theorem c1_fail_redirect_continues_pass_witness :
    scan_table 3 [rowRedirect, sentinelU] 0 [97] () =
      scan_table 3 [sentinelU] 5 [97] () :=
  c1_fail_redirect_continues_pass 3 rowRedirect [sentinelU] 0 [97] () () (-1)
    (by decide) rfl rfl (by decide) (by decide)

/-! C10. -/

/-- C10: a failed eligible record applies its fail redirect exactly
when its on-failure state is non-negative; every negative on-failure
value, not only -1, is ignored and the walk continues under the
unchanged state. -/
theorem c10_negative_fail_state_ignored (fuel : Nat) (row : Transition σ α)
    (rest : List (Transition σ α)) (s : Int) (data : List Nat)
    (context context' : σ) (r : Int)
    (hns : row.current_state ≠ -1) (helig : s = row.current_state)
    (hrt : run_transition fuel row data context = some (r, context'))
    (hr : r < 0) :
    (row.state_fail < 0 →
      scan_table fuel (row :: rest) s data context =
        scan_table fuel rest s data context') ∧
    (0 ≤ row.state_fail →
      scan_table fuel (row :: rest) s data context =
        scan_table fuel rest row.state_fail data context') := by
  constructor
  · intro hneg
    rw [scan_table_cons, if_neg hns, if_pos helig, hrt]
    dsimp only
    rw [if_neg (not_le.mpr hr), if_neg (not_le.mpr hneg)]
  · intro hpos
    rw [scan_table_cons, if_neg hns, if_pos helig, hrt]
    dsimp only
    rw [if_neg (not_le.mpr hr), if_pos hpos]

/-- C10 witness: the on-failure value -7 of `rowNegFail` is ignored
exactly like the designated -1 would be, the walk continuing under the
unchanged state 0. -/
theorem c10_negative_fail_state_ignored_witness :
    scan_table 3 [rowNegFail, sentinelU] 0 [97] () =
      scan_table 3 [sentinelU] 0 [97] () :=
  (c10_negative_fail_state_ignored 3 rowNegFail [sentinelU] 0 [97] () () (-1)
    (by decide) rfl rfl (by decide)).1 (by decide)

/-! C5. -/

/-- C5 counterexample: an empty EXACT_STR pattern does not fail; the
match succeeds with consumed length 0 (memcmp over strlen 0 bytes
returns 0), contradicting the claim that an empty pattern fails. -/
theorem c5_empty_pattern_counterexample :
    run_transition 1 rowEmptyStr [97] () = some (0, ()) ∧
    run_transition 1 rowEmptyStr [97] () ≠ some (-1, ()) := by
  exact ⟨rfl, by decide⟩

/-- C5 amended: an ExactString match fails when the pattern is NULL;
a non NULL pattern matches iff its bytes are a prefix of the input at
the cursor, with consumed length equal to the pattern length; in
particular the empty pattern always matches, consuming 0 bytes. -/
theorem c5_exact_match_characterized (fuel : Nat) (cs sp sf : Int)
    (tt : TransType) (tf : Option (List Nat → σ → α → σ)) (lc : α)
    (data : List Nat) (context : σ) :
    (run_transition fuel (.mk cs (.exactStr none) sp sf tt tf lc) data context
        = some (-1, context)) ∧
    (∀ str : List Nat, str.isPrefixOf data = true →
      run_transition fuel (.mk cs (.exactStr (some str)) sp sf tt tf lc) data
          context = some ((str.length : Int), context)) ∧
    (∀ str : List Nat, str.isPrefixOf data = false →
      run_transition fuel (.mk cs (.exactStr (some str)) sp sf tt tf lc) data
          context = some (-1, context)) ∧
    (run_transition fuel (.mk cs (.exactStr (some [])) sp sf tt tf lc) data
        context = some (0, context)) := by
  refine ⟨rfl, ?_, ?_, ?_⟩
  · intro str h
    simp [run_transition, run_transition_with, h]
  · intro str h
    simp [run_transition, run_transition_with, h]
  · simp [run_transition, run_transition_with, List.isPrefixOf_nil_left]

/-- C5 witness: the two byte pattern [97, 98] matches the input
[97, 98, 99] with consumed length 2. -/
theorem c5_exact_match_characterized_witness :
    run_transition (σ := Unit) (α := Nat) 2
        (.mk 0 (.exactStr (some [97, 98])) 1 (-1) .normal none 0)
        [97, 98, 99] () = some (2, ()) :=
  (c5_exact_match_characterized 2 0 1 (-1) .normal none 0 [97, 98, 99]
    ()).2.1 [97, 98] rfl

/-! C2. -/

/-- C2: when the table walk succeeds at a record whose kind is Reject,
the whole run returns -1 at once: the walk has already stopped, no
further state is entered, and the byte count `nb` committed by earlier
transitions of the run is absent from the result (only -1 is reported),
whatever `nb` was. -/
theorem c2_reject_aborts_run (fuel : Nat) (tbl : List (Transition σ α))
    (s : Int) (data : List Nat) (nb : Nat) (acc : Bool)
    (context context' : σ) (n : Nat) (row : Transition σ α)
    (hs : 0 ≤ s)
    (hscan : scan_table fuel tbl s data context = some (.success n row context'))
    (hrej : row.ttype = .reject) :
    run_fsm_loop (fuel+1) tbl s data nb acc context =
      some ⟨-1, data.drop n, apply_transfn row data context'⟩ := by
  rw [run_fsm_loop_succ, if_neg (not_lt.mpr hs), hscan]
  dsimp only
  rw [hrej]

/-- C2 witness: at state 1 with 7 bytes already committed, matching
the Reject row returns -1 immediately and the 7 committed bytes are
discarded from the report. -/
theorem c2_reject_aborts_run_witness :
    run_fsm_loop 4 [rowCommit, rowReject, sentinelU] 1 [98, 99] 7 false () =
      some ⟨-1, [99], ()⟩ :=
  c2_reject_aborts_run 3 [rowCommit, rowReject, sentinelU] 1 [98, 99] 7 false
    () () 1 rowReject (by decide) rfl rfl

/-! C3. -/

/-- C3: a run enters the loop at state 0 with zero committed bytes and
a clear accept flag; while the state is negative the loop returns the
committed byte count when the accept flag is set and -1 otherwise; and
after a successful transition the accept flag is true precisely when
the record's kind is Accept (a Normal record clears it), so acceptance
is decided by the kind of the last successful transition. -/
theorem c3_start_halt_accept_flag (fuel : Nat) (tbl : List (Transition σ α))
    (data : List Nat) (context context' : σ) (s : Int) (nb : Nat) (acc : Bool)
    (n : Nat) (row : Transition σ α) :
    (run_fsm fuel tbl data context =
      run_fsm_loop fuel tbl 0 data 0 false context) ∧
    (s < 0 → run_fsm_loop (fuel+1) tbl s data nb acc context =
      some ⟨if acc then (nb : Int) else -1, data, context⟩) ∧
    (0 ≤ s →
      scan_table fuel tbl s data context = some (.success n row context') →
      row.ttype = .accept →
      run_fsm_loop (fuel+1) tbl s data nb acc context =
        run_fsm_loop fuel tbl row.state_pass (data.drop n) (nb + n) true
          (apply_transfn row data context')) ∧
    (0 ≤ s →
      scan_table fuel tbl s data context = some (.success n row context') →
      row.ttype = .normal →
      run_fsm_loop (fuel+1) tbl s data nb acc context =
        run_fsm_loop fuel tbl row.state_pass (data.drop n) (nb + n) false
          (apply_transfn row data context')) := by
  refine ⟨rfl, ?_, ?_, ?_⟩
  · intro hs
    rw [run_fsm_loop_succ, if_pos hs]
  · intro hs hscan hacc
    rw [run_fsm_loop_succ, if_neg (not_lt.mpr hs), hscan]
    dsimp only
    rw [hacc]
  · intro hs hscan hnorm
    rw [run_fsm_loop_succ, if_neg (not_lt.mpr hs), hscan]
    dsimp only
    rw [hnorm]

/-- C3 witness: halting at state -1 with the accept flag set reports
the 7 committed bytes, and taking the Accept row from state 0 sets the
accept flag for the continuation. -/
theorem c3_start_halt_accept_flag_witness :
    (run_fsm_loop 4 [rowAccept, sentinelU] (-1) [97] 7 true () =
      some ⟨7, [97], ()⟩) ∧
    (run_fsm_loop 4 [rowAccept, sentinelU] 0 [97] 0 false () =
      run_fsm_loop 3 [rowAccept, sentinelU] 2 [] 1 true ()) :=
  ⟨(c3_start_halt_accept_flag 3 [rowAccept, sentinelU] [97] () () (-1) 7 true
      0 sentinelU).2.1 (by decide),
   (c3_start_halt_accept_flag 3 [rowAccept, sentinelU] [97] () () 0 0 false
      1 rowAccept).2.2.1 (by decide) rfl rfl⟩

/-! C8. -/

/-- C8: on a successful transition with an attached side effect
callback, the callback is applied to the authoritative, not yet
advanced cursor `data`, the context left by the match and the record's
`local_context`; only in the continuation do the cursor and the running
byte count advance by the matched length. -/
theorem c8_callback_on_unadvanced_cursor (fuel : Nat)
    (tbl : List (Transition σ α)) (s : Int) (data : List Nat) (nb : Nat)
    (acc : Bool) (context context' : σ) (n : Nat) (row : Transition σ α)
    (g : List Nat → σ → α → σ)
    (hs : 0 ≤ s)
    (hscan : scan_table fuel tbl s data context = some (.success n row context'))
    (hfn : row.transfn = some g) :
    run_fsm_loop (fuel+1) tbl s data nb acc context =
      match row.ttype with
      | .reject => some ⟨-1, data.drop n, g data context' row.local_context⟩
      | .accept => run_fsm_loop fuel tbl row.state_pass (data.drop n) (nb + n)
          true (g data context' row.local_context)
      | .normal => run_fsm_loop fuel tbl row.state_pass (data.drop n) (nb + n)
          false (g data context' row.local_context) := by
  rw [run_fsm_loop_succ, if_neg (not_lt.mpr hs), hscan]
  dsimp only
  rw [show apply_transfn row data context' = g data context' row.local_context
    from by simp [apply_transfn, hfn]]

/-- C8 witness: on input [97, 98, 99] the callback of `rowObs` records
the full, not yet advanced cursor [97, 98, 99] and its local datum 5
into the context, while the continuation runs with the cursor advanced
past the two matched bytes. -/
theorem c8_callback_on_unadvanced_cursor_witness :
    run_fsm_loop 3 [rowObs, sentinelL] 0 [97, 98, 99] 0 false [] =
      run_fsm_loop 2 [rowObs, sentinelL] 3 [99] 2 false [97, 98, 99, 5] :=
  c8_callback_on_unadvanced_cursor 2 [rowObs, sentinelL] 0 [97, 98, 99] 0
    false [] [] 2 rowObs obsFn (by decide) rfl rfl

/-! C9. -/

/-- C9: context mutations made before a failure are kept.  First, a
transition of Reject kind with a side effect callback has the callback
applied (to the unadvanced cursor, the post match context and the local
datum) and the mutated context is part of the result even though the
run returns -1 at once.  Second, a FUNC predicate returns the pair
produced by the action, so the context the action mutated is carried
onward even when the returned length signals failure. -/
theorem c9_mutations_kept_on_failure (fuel : Nat)
    (tbl : List (Transition σ α)) (s : Int) (data : List Nat) (nb : Nat)
    (acc : Bool) (context context' : σ) (n : Nat) (row rowF : Transition σ α)
    (g : List Nat → σ → α → σ) (act : List Nat → σ → α → Int × σ)
    (hs : 0 ≤ s)
    (hscan : scan_table fuel tbl s data context = some (.success n row context'))
    (hrej : row.ttype = .reject)
    (hfn : row.transfn = some g)
    (hact : rowF.mspec = .func (some act)) :
    run_fsm_loop (fuel+1) tbl s data nb acc context =
      some ⟨-1, data.drop n, g data context' row.local_context⟩ ∧
    run_transition fuel rowF data context =
      some (act data context rowF.local_context) := by
  constructor
  · rw [run_fsm_loop_succ, if_neg (not_lt.mpr hs), hscan]
    dsimp only
    rw [hrej]
    dsimp only
    rw [show apply_transfn row data context' = g data context' row.local_context
      from by simp [apply_transfn, hfn]]
  · simp [run_transition, run_transition_with, hact]

/-- C9 witness: the Reject row's callback has recorded [97, 98] and 7
into the context the -1 result carries, and the failing action's
appended 9 survives in the matcher's returned context. -/
theorem c9_mutations_kept_on_failure_witness :
    run_fsm_loop 2 [rowRejCb, sentinelL] 0 [97, 98] 0 false [] =
      some ⟨-1, [98], [97, 98, 7]⟩ ∧
    run_transition 1 rowFailMut [97, 98] [] = some (-1, [9]) :=
  c9_mutations_kept_on_failure 1 [rowRejCb, sentinelL] 0 [97, 98] 0 false
    [] [] 1 rowRejCb rowFailMut obsFn failAct (by decide) rfl rfl rfl rfl

/-! C7. -/

/-- C7: the matcher only ever works on a copy of the authoritative
cursor.  A table walk with no successful row leaves the halting run's
cursor exactly at its entry value; a sub machine run that fails returns
only its int and context to the matcher, its advanced copy of the
cursor (`res.data`) being discarded; and a successful transition
advances the authoritative cursor by exactly the matched length
returned by the matcher. -/
theorem c7_matcher_copy_discipline (fuel : Nat)
    (tbl sub : List (Transition σ α)) (row rowS : Transition σ α) (s : Int)
    (data : List Nat) (nb : Nat) (acc : Bool) (context context' : σ)
    (res : RunResult σ) (n : Nat) :
    (0 ≤ s → scan_table (fuel+1) tbl s data context = some (.noMatch context') →
      run_fsm_loop (fuel+2) tbl s data nb acc context =
        some ⟨if acc then (nb : Int) else -1, data, context'⟩) ∧
    (row.mspec = .fsmSub (some sub) →
      run_fsm_loop fuel sub 0 data 0 false context = some res →
      run_transition fuel row data context = some (res.ret, res.ctx)) ∧
    (0 ≤ s → scan_table fuel tbl s data context = some (.success n rowS context') →
      rowS.ttype = .normal →
      run_fsm_loop (fuel+1) tbl s data nb acc context =
        run_fsm_loop fuel tbl rowS.state_pass (data.drop n) (nb + n) false
          (apply_transfn rowS data context')) := by
  refine ⟨?_, ?_, ?_⟩
  · intro hs hscan
    rw [show fuel+2 = (fuel+1)+1 from rfl, run_fsm_loop_succ,
      if_neg (not_lt.mpr hs), hscan]
    dsimp only
    rw [run_fsm_loop_succ, if_pos (by decide : (-1 : Int) < 0)]
  · intro hm hrun
    simp [run_transition, run_transition_with, hm, hrun]
  · intro hs hscan hnorm
    rw [run_fsm_loop_succ, if_neg (not_lt.mpr hs), hscan]
    dsimp only
    rw [hnorm]

/-- C7 witness: on [97, 99] the sub run commits one byte on its own
copy of the cursor (final sub cursor [99]) and then fails, and the
outer matcher reports only the failure int and context, leaving the
outer cursor [97, 99] untouched. -/
theorem c7_matcher_copy_discipline_witness :
    run_fsm_loop 4 c7SubTable 0 [97, 99] 0 false () = some ⟨-1, [99], ()⟩ ∧
    run_transition 4 rowOuterSub [97, 99] () = some (-1, ()) :=
  ⟨rfl,
   (c7_matcher_copy_discipline 4 [] c7SubTable rowOuterSub sentinelU 0
      [97, 99] 0 false () () ⟨-1, [99], ()⟩ 0).2.1 rfl rfl⟩

/-! C4. -/

/-- C4 counterexample: a run that commits one byte (97) and then halts
by table exhaustion returns -1, yet the caller's cursor has moved from
[97, 98] to [98]: it is not equal to its value at entry. -/
theorem c4_cursor_moved_on_failure_counterexample :
    run_fsm 5 [rowCommit, sentinelU] [97, 98] () = some ⟨-1, [98], ()⟩ ∧
    ([98] : List Nat) ≠ [97, 98] := by
  exact ⟨rfl, by decide⟩

/-- C4 amended: on any return from a run, the caller's final cursor is
a drop of its value at entry (the driver only ever advances the
cursor, never rewinds it), and the drop distance `k` advances in
lockstep with the internal committed byte counter: whenever the run
returns a non-negative count, that count equals the entry counter `nb`
plus `k`, so a successful run from the entry point (`nb = 0`) has
advanced the cursor past exactly the reported consumed bytes.  On
overall failure (-1) the cursor is therefore not in general restored
to its entry value, as the counterexample shows. -/
theorem c4_cursor_advances_by_drop (fuel : Nat) (tbl : List (Transition σ α))
    (s : Int) (data : List Nat) (nb : Nat) (acc : Bool) (context : σ)
    (res : RunResult σ)
    (h : run_fsm_loop fuel tbl s data nb acc context = some res) :
    ∃ k, res.data = data.drop k ∧
      (0 ≤ res.ret → res.ret = (nb : Int) + (k : Int)) := by
  induction fuel generalizing s data nb acc context res with
  | zero => exact absurd h (by simp [run_fsm_loop])
  | succ fuel ih =>
    rw [run_fsm_loop_succ] at h
    by_cases hs : s < 0
    · rw [if_pos hs] at h
      cases h
      refine ⟨0, rfl, fun hret => ?_⟩
      cases acc with
      | false => simp at hret
      | true => simp
    · rw [if_neg hs] at h
      cases hscan : scan_table fuel tbl s data context with
      | none =>
        rw [hscan] at h
        exact Option.noConfusion h
      | some out =>
        rw [hscan] at h
        cases out with
        | noMatch c' =>
          exact ih _ _ _ _ _ _ h
        | success n row c' =>
          dsimp only at h
          cases htt : row.ttype with
          | reject =>
            rw [htt] at h
            dsimp only at h
            cases h
            exact ⟨n, rfl, fun hret => by simp at hret⟩
          | accept =>
            rw [htt] at h
            dsimp only at h
            obtain ⟨k, hk, htie⟩ := ih _ _ _ _ _ _ h
            refine ⟨k + n, by rw [hk, List.drop_drop, Nat.add_comm], ?_⟩
            intro hret
            have := htie hret
            push_cast at this ⊢
            omega
          | normal =>
            rw [htt] at h
            dsimp only at h
            obtain ⟨k, hk, htie⟩ := ih _ _ _ _ _ _ h
            refine ⟨k + n, by rw [hk, List.drop_drop, Nat.add_comm], ?_⟩
            intro hret
            have := htie hret
            push_cast at this ⊢
            omega

/-- C4 witness: the failing run of the counterexample table left its
final cursor [98] a drop of the entry cursor [97, 98], and an
accepting run on the one byte input [97] reports count 1 with the
cursor advanced by exactly that count (drop distance 1 from entry
counter 0). -/
theorem c4_cursor_advances_by_drop_witness :
    (∃ k, (RunResult.mk (σ := Unit) (-1) [98] ()).data = List.drop k [97, 98] ∧
      (0 ≤ (RunResult.mk (σ := Unit) (-1) [98] ()).ret →
        (RunResult.mk (σ := Unit) (-1) [98] ()).ret =
          ((0 : Nat) : Int) + (k : Int))) ∧
    (∃ k, (RunResult.mk (σ := Unit) 1 [] ()).data = List.drop k [97] ∧
      (0 ≤ (RunResult.mk (σ := Unit) 1 [] ()).ret →
        (RunResult.mk (σ := Unit) 1 [] ()).ret =
          ((0 : Nat) : Int) + (k : Int))) :=
  ⟨c4_cursor_advances_by_drop 5 [rowCommit, sentinelU] 0 [97, 98] 0 false ()
      ⟨-1, [98], ()⟩ rfl,
   c4_cursor_advances_by_drop 4 [rowAccept, sentinelU] 0 [97] 0 false ()
      ⟨1, [], ()⟩ rfl⟩

/-! C6. -/

theorem loop_never_halts_aux (fuel : Nat) :
    ∀ nb : Nat, run_fsm_loop fuel loopTable 0 [] nb false () = none := by
  induction fuel with
  | zero => intro nb; rfl
  | succ fuel ih => intro nb; exact ih nb

/-- C6 counterexample: `loopTable` ends in the sentinel row, yet the
run on the empty input never halts: the zero byte consuming successful
transition of `rowZeroLoop` returns the while loop to state 0 with the
situation unchanged, for any amount of fuel. -/
theorem c6_nontermination_counterexample :
    sentinel_terminated loopTable = true ∧ ¬ fsm_halts loopTable [] () := by
  refine ⟨rfl, ?_⟩
  rintro ⟨fuel, res, hres⟩
  rw [show run_fsm fuel loopTable [] () =
      run_fsm_loop fuel loopTable 0 [] 0 false () from rfl,
    loop_never_halts_aux fuel 0] at hres
  exact Option.noConfusion hres

theorem scan_table_cons_sentinel (fuel : Nat) (row : Transition σ α)
    (rest : List (Transition σ α)) (s : Int) (data : List Nat) (context : σ)
    (h1 : row.current_state = -1) :
    scan_table fuel (row :: rest) s data context = some (.noMatch context) := by
  rw [scan_table_cons, if_pos h1]

theorem scan_table_cons_skip (fuel : Nat) (row : Transition σ α)
    (rest : List (Transition σ α)) (s : Int) (data : List Nat) (context : σ)
    (h1 : row.current_state ≠ -1) (h2 : s ≠ row.current_state) :
    scan_table fuel (row :: rest) s data context =
      scan_table fuel rest s data context := by
  rw [scan_table_cons, if_neg h1, if_neg h2]

theorem scan_table_cons_success (fuel : Nat) (row : Transition σ α)
    (rest : List (Transition σ α)) (s : Int) (data : List Nat)
    (context context' : σ) (r : Int)
    (h1 : row.current_state ≠ -1) (h2 : s = row.current_state)
    (hrt : run_transition fuel row data context = some (r, context'))
    (hr : 0 ≤ r) :
    scan_table fuel (row :: rest) s data context =
      some (.success r.toNat row context') := by
  rw [scan_table_cons, if_neg h1, if_pos h2, hrt]
  dsimp only
  rw [if_pos hr]

theorem scan_table_cons_fail (fuel : Nat) (row : Transition σ α)
    (rest : List (Transition σ α)) (s : Int) (data : List Nat)
    (context context' : σ) (r : Int)
    (h1 : row.current_state ≠ -1) (h2 : s = row.current_state)
    (hrt : run_transition fuel row data context = some (r, context'))
    (hr : ¬ 0 ≤ r) :
    scan_table fuel (row :: rest) s data context =
      (if 0 ≤ row.state_fail then
        scan_table fuel rest row.state_fail data context'
       else scan_table fuel rest s data context') := by
  rw [scan_table_cons, if_neg h1, if_pos h2, hrt]
  dsimp only
  rw [if_neg hr]

theorem run_transition_noSub_isSome (fuel : Nat) (row : Transition σ α)
    (h : noSubRow row = true) (data : List Nat) (context : σ) :
    ∃ r c', run_transition fuel row data context = some (r, c') := by
  obtain ⟨cs, ms, sp, sf, tt, tf, lc⟩ := row
  cases ms with
  | exactStr o =>
    cases o with
    | none => exact ⟨-1, context, rfl⟩
    | some str =>
      cases hp : str.isPrefixOf data with
      | true =>
        exact ⟨str.length, context,
          by simp [run_transition, run_transition_with, hp]⟩
      | false =>
        exact ⟨-1, context, by simp [run_transition, run_transition_with, hp]⟩
  | singleChr o =>
    cases o with
    | none => exact ⟨-1, context, rfl⟩
    | some str =>
      cases data with
      | nil => exact ⟨-1, context, rfl⟩
      | cons b bs =>
        by_cases hb : b ∈ str
        · exact ⟨1, context, by simp [run_transition, run_transition_with, hb]⟩
        · exact ⟨-1, context, by simp [run_transition, run_transition_with, hb]⟩
  | fsmSub o =>
    cases o with
    | none => exact ⟨-1, context, rfl⟩
    | some t => simp [noSubRow] at h
  | func o =>
    cases o with
    | none => exact ⟨-1, context, rfl⟩
    | some act =>
      exact ⟨(act data context lc).1, (act data context lc).2,
        by simp [run_transition, run_transition_with]⟩

theorem scan_noSub_characterization (fuel : Nat) (d : List Nat) :
    ∀ tbl : List (Transition σ α),
      (∀ row ∈ tbl, noSubRow row = true) →
      (∀ row ∈ tbl, ∀ (f : Nat) (c : σ) (r : Int) (c' : σ),
        run_transition f row d c = some (r, c') → 0 ≤ r →
          1 ≤ r ∧ r ≤ (d.length : Int)) →
      ∀ (s : Int) (context : σ),
        (∃ c', scan_table fuel tbl s d context = some (.noMatch c')) ∨
        (∃ n row c', scan_table fuel tbl s d context =
            some (.success n row c') ∧ 1 ≤ n ∧ n ≤ d.length) := by
  intro tbl
  induction tbl with
  | nil => intro _ _ s context; exact Or.inl ⟨context, rfl⟩
  | cons row rest ih =>
    intro hsub hcons s context
    have hsub' : ∀ row' ∈ rest, noSubRow row' = true :=
      fun row' hm => hsub row' (List.mem_cons_of_mem _ hm)
    have hcons' : ∀ row' ∈ rest, ∀ (f : Nat) (c : σ) (r : Int) (c' : σ),
        run_transition f row' d c = some (r, c') → 0 ≤ r →
          1 ≤ r ∧ r ≤ (d.length : Int) :=
      fun row' hm => hcons row' (List.mem_cons_of_mem _ hm)
    by_cases h1 : row.current_state = -1
    · exact Or.inl ⟨context, scan_table_cons_sentinel fuel row rest s d context h1⟩
    · by_cases h2 : s = row.current_state
      · obtain ⟨r, c', hrt⟩ :=
          run_transition_noSub_isSome fuel row (hsub row (List.mem_cons_self _ _))
            d context
        by_cases hr : 0 ≤ r
        · obtain ⟨hr1, hr2⟩ :=
            hcons row (List.mem_cons_self _ _) fuel context r c' hrt hr
          right
          exact ⟨r.toNat, row, c',
            scan_table_cons_success fuel row rest s d context c' r h1 h2 hrt hr,
            by omega, by omega⟩
        · have heq := scan_table_cons_fail fuel row rest s d context c' r h1 h2 hrt hr
          by_cases hf : 0 ≤ row.state_fail
          · rw [if_pos hf] at heq
            rcases ih hsub' hcons' row.state_fail c' with ⟨c'', he⟩ | ⟨n, rw', c'', he, e1, e2⟩
            · exact Or.inl ⟨c'', heq.trans he⟩
            · exact Or.inr ⟨n, rw', c'', heq.trans he, e1, e2⟩
          · rw [if_neg hf] at heq
            rcases ih hsub' hcons' s c' with ⟨c'', he⟩ | ⟨n, rw', c'', he, e1, e2⟩
            · exact Or.inl ⟨c'', heq.trans he⟩
            · exact Or.inr ⟨n, rw', c'', heq.trans he, e1, e2⟩
      · have heq := scan_table_cons_skip fuel row rest s d context h1 h2
        rcases ih hsub' hcons' s context with ⟨c'', he⟩ | ⟨n, rw', c'', he, e1, e2⟩
        · exact Or.inl ⟨c'', heq.trans he⟩
        · exact Or.inr ⟨n, rw', c'', heq.trans he, e1, e2⟩

theorem run_noSub_halts_aux (tbl : List (Transition σ α))
    (hsub : ∀ row ∈ tbl, noSubRow row = true)
    (hcons : ∀ row ∈ tbl, ∀ (f : Nat) (d : List Nat) (c : σ) (r : Int) (c' : σ),
      run_transition f row d c = some (r, c') → 0 ≤ r →
        1 ≤ r ∧ r ≤ (d.length : Int)) :
    ∀ (L : Nat) (d : List Nat), d.length ≤ L →
      ∀ (s : Int) (nb : Nat) (acc : Bool) (context : σ),
        ∃ res, run_fsm_loop (L + 2) tbl s d nb acc context = some res := by
  intro L
  induction L with
  | zero =>
    intro d hd s nb acc context
    have hdnil : d = [] := List.eq_nil_of_length_eq_zero (Nat.le_zero.mp hd)
    subst hdnil
    by_cases hs : s < 0
    · exact ⟨_, by rw [show (0+2 : Nat) = 1+1 from rfl, run_fsm_loop_succ,
        if_pos hs]⟩
    · rcases scan_noSub_characterization 1 [] tbl hsub
        (fun row hm f c r c' h hr => hcons row hm f [] c r c' h hr) s context
        with ⟨c', hscan⟩ | ⟨n, row, c', hscan, hn1, hn2⟩
      · refine ⟨⟨if acc then (nb : Int) else -1, [], c'⟩, ?_⟩
        rw [show (0+2 : Nat) = 1+1 from rfl, run_fsm_loop_succ, if_neg hs, hscan]
        dsimp only
        rw [show (1 : Nat) = 0+1 from rfl, run_fsm_loop_succ,
          if_pos (by decide : (-1 : Int) < 0)]
      · exact absurd hn2 (by simp; omega)
  | succ L ih =>
    intro d hd s nb acc context
    by_cases hs : s < 0
    · exact ⟨_, by rw [show (L+1+2 : Nat) = (L+2)+1 from rfl, run_fsm_loop_succ,
        if_pos hs]⟩
    · rcases scan_noSub_characterization (L+2) d tbl hsub
        (fun row hm f c r c' h hr => hcons row hm f d c r c' h hr) s context
        with ⟨c', hscan⟩ | ⟨n, row, c', hscan, hn1, hn2⟩
      · refine ⟨⟨if acc then (nb : Int) else -1, d, c'⟩, ?_⟩
        rw [show (L+1+2 : Nat) = (L+2)+1 from rfl, run_fsm_loop_succ,
          if_neg hs, hscan]
        dsimp only
        rw [show (L+2 : Nat) = (L+1)+1 from rfl, run_fsm_loop_succ,
          if_pos (by decide : (-1 : Int) < 0)]
      · have hlen : (d.drop n).length ≤ L := by
          rw [List.length_drop]; omega
        cases htt : row.ttype with
        | reject =>
          refine ⟨⟨-1, d.drop n, apply_transfn row d c'⟩, ?_⟩
          rw [show (L+1+2 : Nat) = (L+2)+1 from rfl, run_fsm_loop_succ,
            if_neg hs, hscan]
          dsimp only
          rw [htt]
        | accept =>
          obtain ⟨res, hres⟩ := ih (d.drop n) hlen row.state_pass (nb + n) true
            (apply_transfn row d c')
          refine ⟨res, ?_⟩
          rw [show (L+1+2 : Nat) = (L+2)+1 from rfl, run_fsm_loop_succ,
            if_neg hs, hscan]
          dsimp only
          rw [htt]
          exact hres
        | normal =>
          obtain ⟨res, hres⟩ := ih (d.drop n) hlen row.state_pass (nb + n) false
            (apply_transfn row d c')
          refine ⟨res, ?_⟩
          rw [show (L+1+2 : Nat) = (L+2)+1 from rfl, run_fsm_loop_succ,
            if_neg hs, hscan]
          dsimp only
          rw [htt]
          exact hres

/-- C6 amended: the driver can loop forever on a sentinel terminated
table when a successful match consumes zero bytes (see the
counterexample); but for every table with no attached sub machine rows
in which any successful match consumes at least one byte and never
more than the remaining input, the run halts, with fuel bounded by the
input length plus two loop iterations. -/
theorem c6_strictly_consuming_noSub_halts (tbl : List (Transition σ α))
    (hsub : ∀ row ∈ tbl, noSubRow row = true)
    (hcons : ∀ row ∈ tbl, ∀ (f : Nat) (d : List Nat) (c : σ) (r : Int) (c' : σ),
      run_transition f row d c = some (r, c') → 0 ≤ r →
        1 ≤ r ∧ r ≤ (d.length : Int))
    (data : List Nat) (context : σ) :
    ∃ res, run_fsm (data.length + 2) tbl data context = some res :=
  run_noSub_halts_aux tbl hsub hcons data.length data (le_refl _) 0 0 false
    context

theorem accept_table_consumes : ∀ row ∈ [rowAccept, sentinelU],
    ∀ (f : Nat) (d : List Nat) (c : Unit) (r : Int) (c' : Unit),
      run_transition f row d c = some (r, c') → 0 ≤ r →
        1 ≤ r ∧ r ≤ (d.length : Int) := by
  intro row hm f d c r c' h hr
  simp only [List.mem_cons, List.not_mem_nil, or_false] at hm
  rcases hm with rfl | rfl
  · rw [show run_transition f rowAccept d c =
        (if List.isPrefixOf [97] d then some ((1 : Int), c)
         else some (-1, c)) from rfl] at h
    split at h
    · rename_i hcond
      injection h with h'
      injection h' with h1 h2
      subst h1
      cases d with
      | nil => simp [List.isPrefixOf] at hcond
      | cons b bs =>
        refine ⟨by omega, ?_⟩
        simp only [List.length_cons]
        push_cast
        omega
    · injection h with h'
      injection h' with h1 h2
      omega
  · rw [show run_transition f sentinelU d c = some ((-1 : Int), c) from rfl] at h
    injection h with h'
    injection h' with h1 h2
    omega

/-- C6 witness: the strictly consuming accept table halts on the two
byte input [97, 97] with fuel bounded by the input length plus two. -/
theorem c6_strictly_consuming_noSub_halts_witness :
    ∃ res, run_fsm ((97 :: [97]).length + 2) [rowAccept, sentinelU] [97, 97] ()
      = some res :=
  c6_strictly_consuming_noSub_halts [rowAccept, sentinelU] (by decide)
    accept_table_consumes [97, 97] ()

end Fsm
